import Mathlib

/-!
Verification of the gesture-driven virtual-keyboard core.

The definitions below are a shallow embedding of the Python sources:

* `src/virtual_keyboard.py` — class `VirtualKeyboard`: the keyboard layout and
  geometry constants (`__init__`), hit-testing (`get_key_at_position`), the
  debounced key emitter (`type_key`) and the per-sample gesture step of the
  main loop (`run`, lines 337-342).
* `src/test_opencv.py` / `src/enhanced_demo.py` — class
  `SimpleVirtualKeyboard` / `EnhancedVirtualKeyboard`: the click-driven
  emitter (`mouse_callback`); their `get_key_at_position` is textually the
  same as the one in `virtual_keyboard.py`.

Timestamps and pinch distances are modelled as rationals (`ℚ`); screen
coordinates are integers (`Int`), as produced by the `int(...)` casts in the
sources.  The text buffer is a list of characters, matching Python string
semantics (`s += k` appends, `s[:-1]` drops the last character).
-/

/-- `self.keyboard_layout` from `VirtualKeyboard.__init__` (identical in all
four scripts): rows of key labels, top row first. -/
def keyboard_layout : List (List String) :=
  [["Q", "W", "E", "R", "T", "Y", "U", "I", "O", "P"],
   ["A", "S", "D", "F", "G", "H", "J", "K", "L"],
   ["Z", "X", "C", "V", "B", "N", "M"],
   ["SPACE", "BACK"]]

/-- `self.key_width = 50`. -/
def key_width : Int := 50

/-- `self.key_height = 50`. -/
def key_height : Int := 50

/-- `self.key_margin = 20`. -/
def key_margin : Int := 20

/-- `self.keyboard_start_x = 150`. -/
def keyboard_start_x : Int := 150

/-- `self.keyboard_start_y = 450`. -/
def keyboard_start_y : Int := 450

/-- `self.touch_threshold = 30` (pixel distance below which the pinch counts
as a touch). -/
def touch_threshold : ℚ := 30

/-- `self.key_press_delay = 0.5` (minimum time between key presses, seconds). -/
def key_press_delay : ℚ := 1 / 2

/-- Inner loop of `get_key_at_position` (`virtual_keyboard.py` lines 210-216):
scan one row left to right, returning the first key whose rectangle contains
`(x, y)`; the bounds test is the chained comparison
`key_x <= x <= key_x + key_width and key_y <= y <= key_y + key_height`. -/
def findKeyInRow (x y : Int) (rowIdx : Nat) : Nat → List String → Option String
  | _, [] => none
  | colIdx, key :: rest =>
    let keyX : Int := keyboard_start_x + (colIdx : Int) * (key_width + key_margin)
    let keyY : Int := keyboard_start_y + (rowIdx : Int) * (key_height + key_margin)
    if keyX ≤ x ∧ x ≤ keyX + key_width ∧ keyY ≤ y ∧ y ≤ keyY + key_height then
      some key
    else
      findKeyInRow x y rowIdx (colIdx + 1) rest

/-- Outer loop of `get_key_at_position` (lines 209-217): scan rows top to
bottom, an inner-loop hit returns immediately. -/
def findKeyInRows (x y : Int) : Nat → List (List String) → Option String
  | _, [] => none
  | rowIdx, row :: rest =>
    match findKeyInRow x y rowIdx 0 row with
    | some key => some key
    | none => findKeyInRows x y (rowIdx + 1) rest

/-- `VirtualKeyboard.get_key_at_position` (lines 204-217): the key at pixel
position `(x, y)`, or `none` when the position is over no key. -/
def get_key_at_position (x y : Int) : Option String :=
  findKeyInRows x y 0 keyboard_layout

/-- The `if key == 'SPACE' / elif key == 'BACK' / else` branches shared
verbatim by `VirtualKeyboard.type_key` (lines 223-235) and the
`mouse_callback`s of `test_opencv.py` (lines 133-145) and `enhanced_demo.py`
(lines 242-255): SPACE appends `' '`, BACK drops the last character when the
buffer is non-empty (`if self.typed_text:`), any other label is appended
verbatim. -/
def applyKeyEvent (key : String) (text : List Char) : List Char :=
  if key = "SPACE" then
    text ++ [' ']
  else if key = "BACK" then
    if text ≠ [] then text.dropLast else text
  else
    text ++ key.toList

/-- The two fields of `VirtualKeyboard` that `type_key` reads and writes:
`self.typed_text` (the accumulated text) and `self.last_key_time` (timestamp
of the last emitted key event, initially `0`). -/
structure EmitterState where
  typed_text : List Char
  last_key_time : ℚ
deriving DecidableEq, Repr

/-- `VirtualKeyboard.type_key` (lines 219-248).  `inject` stands for the
`pyautogui.press` call: its result is discarded, mirroring the bare
`try/except: pass` around it, and no failure can escape (the return type is
pure).  Returns the updated state together with the emitted key event
(`some key` exactly when the debounce guard
`current_time - self.last_key_time > self.key_press_delay` admits the press,
in which case the buffer is updated by `applyKeyEvent` and
`self.last_key_time` is set to `current_time`; otherwise `none` and the state
is returned untouched). -/
def type_key (inject : String → Except String Unit) (current_time : ℚ)
    (key : String) (s : EmitterState) : EmitterState × Option String :=
  if current_time - s.last_key_time > key_press_delay then
    let text := applyKeyEvent key s.typed_text
    let _ : Except String Unit := inject key
    ({ typed_text := text, last_key_time := current_time }, some key)
  else
    (s, none)

/-- One time-stamped position sample of the main loop: `t` the value of
`time.time()`, `(px, py)` the index-fingertip pixel position, `dist` the
thumb-to-index pixel distance computed by `is_finger_touching_thumb`. -/
structure Sample where
  t : ℚ
  px : Int
  py : Int
  dist : ℚ
deriving DecidableEq, Repr

/-- The gesture branch of one iteration of `VirtualKeyboard.run`
(lines 329-342): resolve the hovered key, and when the pinch is closed
(`dist < touch_threshold`, the strict comparison of
`is_finger_touching_thumb`) over some key, call `type_key`. -/
def runStep (inject : String → Except String Unit) (s : EmitterState)
    (samp : Sample) : EmitterState × Option String :=
  match get_key_at_position samp.px samp.py with
  | some key =>
    if samp.dist < touch_threshold then
      type_key inject samp.t key s
    else
      (s, none)
  | none => (s, none)

/-- Iterate `runStep` over a list of samples, collecting the emitted key
events together with their timestamps. -/
def processTrace (inject : String → Except String Unit) (s : EmitterState) :
    List Sample → EmitterState × List (ℚ × String)
  | [] => (s, [])
  | samp :: rest =>
    match runStep inject s samp with
    | (s1, none) => processTrace inject s1 rest
    | (s1, some key) =>
      let r := processTrace inject s1 rest
      (r.1, (samp.t, key) :: r.2)

/-- A layout configuration: the fields assigned by
`VirtualKeyboard.__init__` lines 40-53. -/
structure LayoutConfig where
  rows : List (List String)
  kw : Int
  kh : Int
  margin : Int
  origin_x : Int
  origin_y : Int
deriving DecidableEq, Repr

/-- Layout construction as the sources perform it (`__init__` lines 40-53 of
every script): the rows and geometry values are assigned directly to fields.
No check of any kind is made — there is no validation code and no
`InvalidLayoutError` (or any other exception) anywhere in the repository's
construction path, so construction is total. -/
def buildLayout (rows : List (List String)) (kw kh margin origin_x origin_y : Int) :
    LayoutConfig :=
  { rows := rows, kw := kw, kh := kh, margin := margin,
    origin_x := origin_x, origin_y := origin_y }

/-- The configuration every script actually constructs. -/
def defaultLayout : LayoutConfig :=
  buildLayout keyboard_layout key_width key_height key_margin
    keyboard_start_x keyboard_start_y

/-- `SimpleVirtualKeyboard.mouse_callback` (`test_opencv.py` lines 128-145;
`enhanced_demo.py` lines 232-255 is the same for the click branch): on a
left-button-down event, resolve the key under the click and apply it to the
buffer; any other event, or a click over no key, does nothing.  No timestamp
is consulted and no debounce state exists.  Returns the new buffer and the
key event handled (if any). -/
def mouse_callback (lbuttondown : Bool) (x y : Int) (typed_text : List Char) :
    List Char × Option String :=
  if lbuttondown then
    match get_key_at_position x y with
    | some key => (applyKeyEvent key typed_text, some key)
    | none => (typed_text, none)
  else
    (typed_text, none)

/-- Iterate `mouse_callback` over a list of left-button clicks, collecting the
key events handled. -/
def processClicks (typed_text : List Char) :
    List (Int × Int) → List Char × List String
  | [] => (typed_text, [])
  | (x, y) :: rest =>
    match mouse_callback true x y typed_text with
    | (text1, none) => processClicks text1 rest
    | (text1, some key) =>
      let r := processClicks text1 rest
      (r.1, key :: r.2)

/-- Spec-side enumeration of one row's key slots in left-to-right order,
paired with their (row, column) indices. -/
def rowSlots (rowIdx : Nat) : Nat → List String → List (Nat × Nat × String)
  | _, [] => []
  | colIdx, key :: rest => (rowIdx, colIdx, key) :: rowSlots rowIdx (colIdx + 1) rest

/-- Spec-side row-major enumeration of all key slots, rows top to bottom. -/
def layoutSlots : Nat → List (List String) → List (Nat × Nat × String)
  | _, [] => []
  | rowIdx, row :: rest => rowSlots rowIdx 0 row ++ layoutSlots (rowIdx + 1) rest

/-- The row-major slot list of the spec's Layout. -/
def rowMajorSlots : List (Nat × Nat × String) := layoutSlots 0 keyboard_layout

/-- Spec-side rectangle membership, written from the spec's geometry: slot
(row, col) occupies
`[origin_x + col·(key_width+margin), origin_x + col·(key_width+margin) + key_width] ×
[origin_y + row·(key_height+margin), origin_y + row·(key_height+margin) + key_height]`,
boundary inclusive. -/
def slotContains (rowIdx colIdx : Nat) (x y : Int) : Bool :=
  decide (keyboard_start_x + (colIdx : Int) * (key_width + key_margin) ≤ x ∧
    x ≤ keyboard_start_x + (colIdx : Int) * (key_width + key_margin) + key_width ∧
    keyboard_start_y + (rowIdx : Int) * (key_height + key_margin) ≤ y ∧
    y ≤ keyboard_start_y + (rowIdx : Int) * (key_height + key_margin) + key_height)

/-- `self.keys` of `SimpleVirtualKeyboard.__init__` (`simple_demo.py`
line 28). -/
def simple_keys : List String := ["A", "B", "C", "D", "E"]

/-- One entry of `self.key_positions` in `simple_demo.py`: the dict with
fields `key`, `x`, `y`, `width`, `height` built by `setup_keyboard`. -/
structure SimpleKeySlot where
  key : String
  x : Int
  y : Int
  width : Int
  height : Int
deriving DecidableEq, Repr

/-- `SimpleVirtualKeyboard.setup_keyboard` (`simple_demo.py` lines 36-51):
key `i` occupies `x = 100 + i·120`, `y = 400`, width and height `100`
(`start_x, start_y = 100, 400`, `key_width, key_height = 100, 100`,
`spacing = 120`). -/
def setupKeys : Nat → List String → List SimpleKeySlot
  | _, [] => []
  | i, key :: rest =>
    { key := key, x := 100 + (i : Int) * 120, y := 400, width := 100, height := 100 }
      :: setupKeys (i + 1) rest

/-- `self.key_positions` after `setup_keyboard` has run. -/
def simple_key_positions : List SimpleKeySlot := setupKeys 0 simple_keys

/-- `self.touch_threshold = 40` of `simple_demo.py` (line 33). -/
def simple_touch_threshold : ℚ := 40

/-- Loop body of `SimpleVirtualKeyboard.get_key_at_position` (`simple_demo.py`
lines 93-102): first slot whose inclusive rectangle
(`kx <= x <= kx + kw and ky <= y <= ky + kh`) contains the point. -/
def simpleFindKey (x y : Int) : List SimpleKeySlot → Option String
  | [] => none
  | k :: rest =>
    if k.x ≤ x ∧ x ≤ k.x + k.width ∧ k.y ≤ y ∧ y ≤ k.y + k.height then
      some k.key
    else
      simpleFindKey x y rest

/-- `SimpleVirtualKeyboard.get_key_at_position` (`simple_demo.py`
lines 93-102). -/
def simple_get_key_at_position (x y : Int) : Option String :=
  simpleFindKey x y simple_key_positions

/-- The gesture branch of one iteration of `SimpleVirtualKeyboard.run`
(`simple_demo.py` lines 135-141): resolve the hovered key, and when touching
(`dist < simple_touch_threshold`, the strict comparison of `is_touching`)
over some key, append the key's label to the text
(`self.typed_text += current_key`).  No timestamp is consulted — this emitter
has no `last_key_time`, no `key_press_delay` and no debounce of any kind. -/
def simpleRunStep (typed_text : List Char) (samp : Sample) :
    List Char × Option String :=
  match simple_get_key_at_position samp.px samp.py with
  | some key =>
    if samp.dist < simple_touch_threshold then
      (typed_text ++ key.toList, some key)
    else
      (typed_text, none)
  | none => (typed_text, none)

/-- Iterate `simpleRunStep` over a list of samples, collecting the emitted
key events together with their timestamps. -/
def simpleProcessTrace (typed_text : List Char) :
    List Sample → List Char × List (ℚ × String)
  | [] => (typed_text, [])
  | samp :: rest =>
    match simpleRunStep typed_text samp with
    | (t1, none) => simpleProcessTrace t1 rest
    | (t1, some key) =>
      let r := simpleProcessTrace t1 rest
      (r.1, (samp.t, key) :: r.2)

/-! ## Helper lemmas -/

lemma type_key_fire (inject : String → Except String Unit) (now : ℚ) (key : String)
    (s : EmitterState) (h : now - s.last_key_time > key_press_delay) :
    type_key inject now key s =
      ({ typed_text := applyKeyEvent key s.typed_text, last_key_time := now }, some key) := by
  unfold type_key
  rw [if_pos h]

lemma type_key_reject (inject : String → Except String Unit) (now : ℚ) (key : String)
    (s : EmitterState) (h : ¬ now - s.last_key_time > key_press_delay) :
    type_key inject now key s = (s, none) := by
  unfold type_key
  rw [if_neg h]

lemma runStep_snd_none (inject : String → Except String Unit) (s : EmitterState)
    (samp : Sample) (h : (runStep inject s samp).2 = none) :
    (runStep inject s samp).1 = s := by
  unfold runStep at h ⊢
  cases hk : get_key_at_position samp.px samp.py with
  | none => simp
  | some key =>
    simp only [hk] at h ⊢
    by_cases hd : samp.dist < touch_threshold
    · rw [if_pos hd] at h ⊢
      by_cases ht : samp.t - s.last_key_time > key_press_delay
      · rw [type_key_fire inject samp.t key s ht] at h
        exact absurd h (by simp)
      · rw [type_key_reject inject samp.t key s ht]
    · rw [if_neg hd]

lemma runStep_snd_some (inject : String → Except String Unit) (s : EmitterState)
    (samp : Sample) (key : String) (h : (runStep inject s samp).2 = some key) :
    s.last_key_time + key_press_delay < samp.t ∧
      (runStep inject s samp).1.last_key_time = samp.t := by
  unfold runStep at h ⊢
  cases hk : get_key_at_position samp.px samp.py with
  | none => simp only [hk] at h; exact absurd h (by simp)
  | some key1 =>
    simp only [hk] at h ⊢
    by_cases hd : samp.dist < touch_threshold
    · rw [if_pos hd] at h ⊢
      by_cases ht : samp.t - s.last_key_time > key_press_delay
      · rw [type_key_fire inject samp.t key1 s ht]
        constructor
        · linarith [ht]
        · rfl
      · rw [type_key_reject inject samp.t key1 s ht] at h
        exact absurd h (by simp)
    · rw [if_neg hd] at h
      exact absurd h (by simp)

lemma runStep_quiet (inject : String → Except String Unit) (s : EmitterState)
    (samp : Sample) (h : samp.t ≤ s.last_key_time + key_press_delay) :
    runStep inject s samp = (s, none) := by
  unfold runStep
  cases hk : get_key_at_position samp.px samp.py with
  | none => rfl
  | some key =>
    simp only [hk]
    by_cases hd : samp.dist < touch_threshold
    · rw [if_pos hd]
      exact type_key_reject inject samp.t key s (by intro hgt; linarith)
    · rw [if_neg hd]

/-! ## Claims C2, C5, C7, C8, C9, C10 -/

/-- C2: counterexample.  A qualifying gesture arriving exactly
`key_press_delay` after the previous event does not fire: with
`last_key_time = 0` and `current_time = 1/2 = key_press_delay`, `type_key`
emits no event and leaves the state untouched, because the source compares
with strict `>` (`current_time - self.last_key_time > self.key_press_delay`),
not the inclusive `>=` the claim states. -/
theorem c2_counterexample :
    (1 : ℚ) / 2 - (0 : ℚ) = key_press_delay ∧
    type_key (fun _ => Except.ok ()) (1 / 2) "A" ⟨[], 0⟩ = (⟨[], 0⟩, none) := by
  constructor
  · norm_num [key_press_delay]
  · exact type_key_reject _ _ _ _ (by norm_num [key_press_delay])

/-- C2 (amended): the debounce comparison is strict and exclusive — a key
event is emitted exactly when the elapsed time since the last emitted event
is strictly greater than `key_press_delay`; a qualifying gesture arriving
exactly `key_press_delay` after the previous event does not fire. -/
theorem c2_strict_debounce (inject : String → Except String Unit) (now : ℚ)
    (key : String) (s : EmitterState) :
    (type_key inject now key s).2 = some key ↔
      now - s.last_key_time > key_press_delay := by
  by_cases h : now - s.last_key_time > key_press_delay
  · rw [type_key_fire inject now key s h]
    simp [h]
  · rw [type_key_reject inject now key s h]
    simp [h]

/-- C5: counterexample.  Layout construction performs no validation: with all
dimensions non-positive and an empty row sequence it still succeeds and
yields the layout verbatim, instead of failing — no `InvalidLayoutError` (or
any other construction-time failure path) exists anywhere in the sources, and
`buildLayout` is accordingly total. -/
theorem c5_counterexample :
    buildLayout [] (-1) (-1) (-1) 0 0 =
      { rows := [], kw := -1, kh := -1, margin := -1, origin_x := 0, origin_y := 0 } := rfl

/-- C5 (amended): layout construction never fails — for every input,
including non-positive dimensions and an empty row sequence, it succeeds and
yields the layout with exactly the given fields (the sources perform no
validation); the configuration the programs actually build has positive
dimensions and non-empty rows. -/
theorem c5_construction_total :
    (∀ (rows : List (List String)) (kw kh margin ox oy : Int),
      buildLayout rows kw kh margin ox oy =
        { rows := rows, kw := kw, kh := kh, margin := margin,
          origin_x := ox, origin_y := oy }) ∧
    (0 < defaultLayout.kw ∧ 0 < defaultLayout.kh ∧ 0 < defaultLayout.margin ∧
      defaultLayout.rows ≠ []) := by
  refine ⟨fun rows kw kh margin ox oy => rfl, ?_⟩
  decide

/-- C7: applying BACK to an empty buffer leaves it empty and raises no error
(`applyKeyEvent` is total — the source guards with `if self.typed_text:` and
otherwise does nothing); applying BACK to a non-empty buffer removes exactly
the last character and leaves the rest unchanged. -/
theorem c7_back_semantics :
    applyKeyEvent "BACK" [] = [] ∧
    ∀ (t : List Char) (c : Char), applyKeyEvent "BACK" (t ++ [c]) = t := by
  constructor
  · decide
  · intro t c
    simp [applyKeyEvent]

/-- C8: applying SPACE appends exactly one space character, and applying any
key whose label is neither SPACE nor BACK appends that label's text verbatim;
in both cases the previously buffered characters are left unchanged (the
result is `t ++ suffix`). -/
theorem c8_append_semantics :
    (∀ t : List Char, applyKeyEvent "SPACE" t = t ++ [' ']) ∧
    ∀ (key : String) (t : List Char), key ≠ "SPACE" → key ≠ "BACK" →
      applyKeyEvent key t = t ++ key.toList := by
  constructor
  · intro t
    simp [applyKeyEvent]
  · intro key t h1 h2
    simp [applyKeyEvent, h1, h2]

/-- Witness for `c8_append_semantics` at key "A" and buffer ['X']. -/
theorem c8_append_semantics_witness :
    applyKeyEvent "A" ['X'] = ['X'] ++ "A".toList :=
  c8_append_semantics.2 "A" ['X'] (by decide) (by decide)

/-- C9: a failure of the external key-injection call never changes the
outcome of `type_key`: the buffer mutation, the `last_key_time` update and
the emitted event are identical for any two injectors (in particular for one
that always fails and one that always succeeds), and since the return type is
pure, no injection error can propagate to the caller — mirroring the bare
`try/except: pass` that swallows every `pyautogui` error. -/
theorem c9_injection_irrelevant :
    ∀ (inj1 inj2 : String → Except String Unit) (now : ℚ) (key : String)
      (s : EmitterState), type_key inj1 now key s = type_key inj2 now key s := by
  intro inj1 inj2 now key s
  rfl

/-- C10: when the debounce check rejects (elapsed time since the last emitted
event not strictly greater than `key_press_delay`), `type_key` is a complete
no-op: it returns the state unchanged in every field (`typed_text` and
`last_key_time` are the only fields it ever reads or writes) and emits no
event. -/
theorem c10_debounce_reject_noop (inject : String → Except String Unit)
    (now : ℚ) (key : String) (s : EmitterState)
    (h : ¬ now - s.last_key_time > key_press_delay) :
    type_key inject now key s = (s, none) :=
  type_key_reject inject now key s h

/-- Witness for `c10_debounce_reject_noop`: at `current_time = 1/4`, within
the debounce window of an event at time 0, nothing changes. -/
theorem c10_debounce_reject_noop_witness :
    type_key (fun _ => Except.ok ()) (1 / 4) "A" ⟨[], 0⟩ = (⟨[], 0⟩, none) :=
  c10_debounce_reject_noop (fun _ => Except.ok ()) (1 / 4) "A" ⟨[], 0⟩
    (by norm_num [key_press_delay])

/-! ## Claim C1: the held-pinch no-repeat claim -/

lemma runStep_eval_fire (inject : String → Except String Unit) (s : EmitterState)
    (samp : Sample) (key : String)
    (hk : get_key_at_position samp.px samp.py = some key)
    (hd : samp.dist < touch_threshold)
    (ht : samp.t - s.last_key_time > key_press_delay) :
    runStep inject s samp =
      ({ typed_text := applyKeyEvent key s.typed_text, last_key_time := samp.t },
        some key) := by
  unfold runStep
  simp only [hk]
  rw [if_pos hd, type_key_fire inject samp.t key s ht]

/-- C1: counterexample.  The code has no PRESSING latch: with the pinch held
closed (distance 0 < `touch_threshold`) over key "A" for the whole trace, an
event fires at t = 1 and a second event fires at t = 2, because the only
guard is the time-based debounce — so "no further key events fire ... for any
elapsed time" is false on the code. -/
theorem c1_counterexample :
    (∀ p ∈ [(⟨1, 175, 545, 0⟩ : Sample), ⟨2, 175, 545, 0⟩], p.dist < touch_threshold) ∧
    (processTrace (fun _ => Except.ok ()) ⟨[], 0⟩
        [⟨1, 175, 545, 0⟩, ⟨2, 175, 545, 0⟩]).2 = [(1, "A"), (2, "A")] := by
  constructor
  · intro p hp
    rcases List.mem_cons.mp hp with h | h
    · subst h; norm_num [touch_threshold]
    · simp only [List.mem_singleton] at h
      subst h; norm_num [touch_threshold]
  · have h1 : runStep (fun _ => Except.ok ()) ⟨[], 0⟩ ⟨1, 175, 545, 0⟩ =
        (⟨['A'], 1⟩, some "A") := by
      rw [runStep_eval_fire _ _ _ "A" (by decide) (by norm_num [touch_threshold])
        (by norm_num [key_press_delay])]
      decide
    have h2 : runStep (fun _ => Except.ok ()) ⟨['A'], 1⟩ ⟨2, 175, 545, 0⟩ =
        (⟨['A', 'A'], 2⟩, some "A") := by
      rw [runStep_eval_fire _ _ _ "A" (by decide) (by norm_num [touch_threshold])
        (by norm_num [key_press_delay])]
      decide
    simp only [processTrace, h1, h2]

/-- C1 (amended): while a pinch remains closed after one key event has fired,
no further key events fire and the state (text buffer included) is unchanged
for any number of subsequent samples — even if the hovered key changes —
PROVIDED the elapsed time since the last emitted event stays at most
`key_press_delay`; once more than `key_press_delay` elapses, the held pinch
fires again (`c1_counterexample`), as the debounce is by time only. -/
theorem c1_no_refire_within_delay (inject : String → Except String Unit)
    (s : EmitterState) (samples : List Sample)
    (_hpinch : ∀ p ∈ samples, p.dist < touch_threshold)
    (htime : ∀ p ∈ samples, p.t ≤ s.last_key_time + key_press_delay) :
    processTrace inject s samples = (s, []) := by
  clear _hpinch
  induction samples with
  | nil => rfl
  | cons samp rest ih =>
    have hq : runStep inject s samp = (s, none) :=
      runStep_quiet inject s samp (htime samp (List.mem_cons_self samp rest))
    simp only [processTrace, hq]
    exact ih (fun p hp => htime p (List.mem_cons_of_mem samp hp))

/-- Witness for `c1_no_refire_within_delay`: after an event at time 1, a
pinched sample over "A" at time 5/4 (within the debounce window) produces
nothing. -/
theorem c1_no_refire_within_delay_witness :
    processTrace (fun _ => Except.ok ()) ⟨['A'], 1⟩ [⟨5 / 4, 175, 545, 0⟩] =
      (⟨['A'], 1⟩, []) :=
  c1_no_refire_within_delay (fun _ => Except.ok ()) ⟨['A'], 1⟩ [⟨5 / 4, 175, 545, 0⟩]
    (by
      intro p hp
      simp only [List.mem_singleton] at hp
      subst hp
      norm_num [touch_threshold])
    (by
      intro p hp
      simp only [List.mem_singleton] at hp
      subst hp
      norm_num [key_press_delay])

/-! ## Claim C4: at most one event per debounce window -/

lemma processTrace_chain (inject : String → Except String Unit) :
    ∀ (samples : List Sample) (s : EmitterState),
    List.Chain (fun a b : ℚ => a + key_press_delay < b) s.last_key_time
      (((processTrace inject s samples).2).map Prod.fst) := by
  intro samples
  induction samples with
  | nil => intro s; simp [processTrace]
  | cons samp rest ih =>
    intro s
    rcases hr : runStep inject s samp with ⟨s1, ev⟩
    cases ev with
    | none =>
      have hs1 : s1 = s := by
        have h0 := runStep_snd_none inject s samp (by rw [hr])
        rw [hr] at h0
        exact h0
      simp only [processTrace, hr]
      rw [hs1]
      exact ih s
    | some key =>
      have hsome := runStep_snd_some inject s samp key (by rw [hr])
      rw [hr] at hsome
      have h2 : s1.last_key_time = samp.t := hsome.2
      simp only [processTrace, hr, List.map_cons]
      refine List.Chain.cons hsome.1 ?_
      rw [← h2]
      exact ih s1

lemma chain_gap_pairwise :
    ∀ (ts : List ℚ) (t0 : ℚ),
    List.Chain (fun a b : ℚ => a + key_press_delay < b) t0 ts →
    List.Pairwise (fun a b : ℚ => a + key_press_delay < b) (t0 :: ts) := by
  intro ts
  induction ts with
  | nil => intro t0 _; simp
  | cons t1 ts ih =>
    intro t0 hc
    rcases List.chain_cons.mp hc with ⟨h01, hc1⟩
    have hp1 := ih t1 hc1
    refine List.Pairwise.cons ?_ hp1
    intro b hb
    rcases List.mem_cons.mp hb with rfl | hb
    · exact h01
    · have ht1b : t1 + key_press_delay < b := (List.pairwise_cons.mp hp1).1 b hb
      have hd : (0 : ℚ) ≤ key_press_delay := by norm_num [key_press_delay]
      linarith

lemma pairwise_filter_length_le_one {α : Type} {R : α → α → Prop} {P : α → Bool}
    (hnot : ∀ x y, R x y → P x = true → P y = true → False) :
    ∀ l : List α, List.Pairwise R l → (l.filter P).length ≤ 1 := by
  intro l
  induction l with
  | nil => intro _; simp
  | cons a l ih =>
    intro hp
    rcases List.pairwise_cons.mp hp with ⟨ha, hl⟩
    by_cases hPa : P a = true
    · rw [List.filter_cons_of_pos hPa]
      have hnil : l.filter P = [] := by
        rw [List.filter_eq_nil_iff]
        intro b hb hPb
        exact hnot a b (ha b hb) hPa hPb
      rw [hnil]
      simp
    · rw [List.filter_cons_of_neg (by simpa using hPa)]
      exact ih hl

/-- C4: counterexample.  The claim covers every gesture-driven emitter, and
the one in `simple_demo.py` (lines 138-141) has no `last_key_time`, no
`key_press_delay` and no debounce at all: it appends on every touching
frame.  Two touching samples over key "B" arriving 1/5 s apart (less than
`key_press_delay` = 1/2 s, so both inside the single window
`[0, key_press_delay]`) each emit a key event and each append to the buffer —
two events and two buffer mutations within one debounce window. -/
theorem c4_counterexample :
    simpleProcessTrace [] [⟨0, 250, 450, 0⟩, ⟨1 / 5, 250, 450, 0⟩] =
      (['B', 'B'], [(0, "B"), (1 / 5, "B")]) ∧
    (1 / 5 : ℚ) - 0 ≤ key_press_delay := by
  constructor
  · have h1 : simpleRunStep [] ⟨0, 250, 450, 0⟩ = (['B'], some "B") := by
      have hk : simple_get_key_at_position (⟨0, 250, 450, 0⟩ : Sample).px
          (⟨0, 250, 450, 0⟩ : Sample).py = some "B" := by decide
      unfold simpleRunStep
      simp only [hk]
      rw [if_pos (by norm_num [simple_touch_threshold])]
      decide
    have h2 : simpleRunStep ['B'] ⟨1 / 5, 250, 450, 0⟩ = (['B', 'B'], some "B") := by
      have hk : simple_get_key_at_position (⟨1 / 5, 250, 450, 0⟩ : Sample).px
          (⟨1 / 5, 250, 450, 0⟩ : Sample).py = some "B" := by decide
      unfold simpleRunStep
      simp only [hk]
      rw [if_pos (by norm_num [simple_touch_threshold])]
      decide
    simp only [simpleProcessTrace, h1, h2]
  · norm_num [key_press_delay]

/-- C4 (amended): in every execution of the debounced gesture emitter of
`virtual_keyboard.py` (`type_key` driven by `run`), at most one key event is
emitted within any window `[a, a + key_press_delay]` of length
`key_press_delay`, for any initial state and any sample list; and the text
buffer changes at a step only when that step emits an event, so it too is
mutated at most once per window.  The undebounced gesture emitter of
`simple_demo.py` consults no timing and is not subject to this bound
(`c4_counterexample`). -/
theorem c4_at_most_one_event_per_window :
    (∀ (inject : String → Except String Unit) (s : EmitterState)
        (samples : List Sample) (a : ℚ),
      (((processTrace inject s samples).2).filter
          (fun e => decide (a ≤ e.1 ∧ e.1 ≤ a + key_press_delay))).length ≤ 1) ∧
    (∀ (inject : String → Except String Unit) (s : EmitterState) (samp : Sample),
      (runStep inject s samp).1.typed_text ≠ s.typed_text →
      ((runStep inject s samp).2).isSome = true) := by
  constructor
  · intro inject s samples a
    have hchain := processTrace_chain inject samples s
    have hpw := chain_gap_pairwise _ _ hchain
    have hpw2 : List.Pairwise (fun u v : ℚ => u + key_press_delay < v)
        (((processTrace inject s samples).2).map Prod.fst) :=
      (List.pairwise_cons.mp hpw).2
    have hpwE : List.Pairwise
        (fun e1 e2 : ℚ × String => e1.1 + key_press_delay < e2.1)
        ((processTrace inject s samples).2) := List.pairwise_map.mp hpw2
    refine pairwise_filter_length_le_one ?_ _ hpwE
    intro u v huv hu hv
    have hu1 : a ≤ u.1 ∧ u.1 ≤ a + key_press_delay := by simpa using hu
    have hv1 : a ≤ v.1 ∧ v.1 ≤ a + key_press_delay := by simpa using hv
    linarith [hu1.1, hu1.2, hv1.1, hv1.2, huv]
  · intro inject s samp hne
    cases hev : (runStep inject s samp).2 with
    | some k => rfl
    | none => exact absurd (by rw [runStep_snd_none inject s samp hev]) hne

/-- Witness for `c4_at_most_one_event_per_window` (second conjunct): at the
firing step from the initial state, the buffer changes and indeed an event is
emitted. -/
theorem c4_at_most_one_event_per_window_witness :
    ((runStep (fun _ => Except.ok ()) ⟨[], 0⟩ ⟨1, 175, 545, 0⟩).2).isSome = true :=
  c4_at_most_one_event_per_window.2 (fun _ => Except.ok ()) ⟨[], 0⟩ ⟨1, 175, 545, 0⟩
    (by
      rw [runStep_eval_fire _ _ _ "A" (by decide) (by norm_num [touch_threshold])
        (by norm_num [key_press_delay])]
      decide)

/-! ## Claim C3: key-position resolution -/

lemma findKeyInRow_eq_find? (x y : Int) (rowIdx : Nat) :
    ∀ (keys : List String) (colIdx : Nat),
    findKeyInRow x y rowIdx colIdx keys =
      ((rowSlots rowIdx colIdx keys).find?
          (fun slot => slotContains slot.1 slot.2.1 x y)).map
        (fun slot => slot.2.2) := by
  intro keys
  induction keys with
  | nil => intro colIdx; simp [findKeyInRow, rowSlots]
  | cons key rest ih =>
    intro colIdx
    by_cases hc : keyboard_start_x + (colIdx : Int) * (key_width + key_margin) ≤ x ∧
        x ≤ keyboard_start_x + (colIdx : Int) * (key_width + key_margin) + key_width ∧
        keyboard_start_y + (rowIdx : Int) * (key_height + key_margin) ≤ y ∧
        y ≤ keyboard_start_y + (rowIdx : Int) * (key_height + key_margin) + key_height
    · simp only [findKeyInRow, rowSlots]
      rw [if_pos hc, List.find?_cons_of_pos _ (by
        simp only [slotContains, decide_eq_true_eq]
        exact hc)]
      rfl
    · simp only [findKeyInRow, rowSlots]
      rw [if_neg hc, List.find?_cons_of_neg _ (by
        simp only [slotContains, decide_eq_true_eq]
        exact hc)]
      exact ih (colIdx + 1)

lemma findKeyInRows_eq_find? (x y : Int) :
    ∀ (rows : List (List String)) (rowIdx : Nat),
    findKeyInRows x y rowIdx rows =
      ((layoutSlots rowIdx rows).find?
          (fun slot => slotContains slot.1 slot.2.1 x y)).map
        (fun slot => slot.2.2) := by
  intro rows
  induction rows with
  | nil => intro rowIdx; simp [findKeyInRows, layoutSlots]
  | cons row rest ih =>
    intro rowIdx
    simp only [findKeyInRows, layoutSlots, List.find?_append]
    rw [findKeyInRow_eq_find? x y rowIdx row 0, ih (rowIdx + 1)]
    cases hf : (rowSlots rowIdx 0 row).find?
        (fun slot => slotContains slot.1 slot.2.1 x y) with
    | some slot => simp [Option.or]
    | none => simp [Option.or]

/-- C3: for every point `(x, y)`, `get_key_at_position` returns exactly the
first key, in row-major order (rows top-to-bottom, columns left-to-right), of
the slot whose rectangle
`[origin_x + col·(key_width+margin), origin_x + col·(key_width+margin) + key_width] ×
[origin_y + row·(key_height+margin), origin_y + row·(key_height+margin) + key_height]`
contains the point inclusive of its boundary (`rowMajorSlots` / `slotContains`
spell out the spec's enumeration and geometry), and returns `none` exactly
when no slot's rectangle contains the point. -/
theorem c3_resolution_first_match :
    ∀ x y : Int,
      (get_key_at_position x y =
        (rowMajorSlots.find? (fun slot => slotContains slot.1 slot.2.1 x y)).map
          (fun slot => slot.2.2)) ∧
      (get_key_at_position x y = none ↔
        ∀ slot ∈ rowMajorSlots, slotContains slot.1 slot.2.1 x y = false) := by
  intro x y
  have h : get_key_at_position x y =
      (rowMajorSlots.find? (fun slot => slotContains slot.1 slot.2.1 x y)).map
        (fun slot => slot.2.2) := by
    unfold get_key_at_position rowMajorSlots
    exact findKeyInRows_eq_find? x y keyboard_layout 0
  refine ⟨h, ?_⟩
  rw [h]
  simp only [Option.map_eq_none', List.find?_eq_none, Bool.not_eq_true]

/-! ## Claim C6: the click-based emitter -/

/-- C6: the click-based emitter fires exactly one key event per discrete
click landing on a key and none for a click landing on no key.  No timestamp
and no debounce or PRESSING state exist in `mouse_callback` (it consumes only
the click position and the buffer), so two clicks arbitrarily close in time
each produce their event: over any click sequence the handled events are
exactly the per-click key resolutions. -/
theorem c6_click_fires_per_click :
    ∀ (typed_text : List Char) (clicks : List (Int × Int)),
      (processClicks typed_text clicks).2 =
        clicks.filterMap (fun c => get_key_at_position c.1 c.2) := by
  intro typed_text clicks
  induction clicks generalizing typed_text with
  | nil => simp [processClicks]
  | cons c rest ih =>
    obtain ⟨x, y⟩ := c
    cases hk : get_key_at_position x y with
    | none =>
      have hm : mouse_callback true x y typed_text = (typed_text, none) := by
        unfold mouse_callback
        simp [hk]
      simp only [processClicks, hm, List.filterMap_cons, hk]
      exact ih typed_text
    | some key =>
      have hm : mouse_callback true x y typed_text =
          (applyKeyEvent key typed_text, some key) := by
        unfold mouse_callback
        simp [hk]
      simp only [processClicks, hm, List.filterMap_cons, hk]
      rw [ih (applyKeyEvent key typed_text)]
